import Mathlib

/-!
# voicerec: audio preprocessing pipeline (`app/src/main/cpp/audio_utils.cpp`)

Shallow embedding of the functions of `audio_utils.cpp`.

Conventions of the embedding:
* `std::vector<float>` is `List ℚ`: a `float` sample is an exact rational, every
  arithmetic operation is the exact one (no rounding, no NaN, no infinity);
  float literals such as `0.8f` are the decimal they are written as.
* `int` is `ℤ`, `size_t` is `ℕ`; the one `size_t` subtraction that can wrap
  (`audio.size() - 1`) is taken modulo `2 ^ 64`.
* `audio[i]` is the total read `audio.getD i 0`.
* a function that mutates its `std::vector<float>&` argument returns the new buffer.
* `std::sqrt` is met once, in a comparison; the comparison is decided on the squares
  and proved to be the comparison with the real square root.
* the `LOGI` calls are side output only and are left out.
-/

namespace VoiceRec

/-! ## Helpers for the C++ primitives -/

/-- The conversion `static_cast<size_t>(x)` of a float: truncation toward zero
(the floor on the non-negative values the code converts). -/
def toSize (x : ℚ) : ℕ := Int.toNat ⌊x⌋

/-- The `size_t` subtraction `a - b`, wrapping modulo `2 ^ 64`. -/
def sizeSub (a b : ℕ) : ℕ := (a + 2 ^ 64 - b % 2 ^ 64) % 2 ^ 64

/-- The loop `for (i = 0; i < n; ++i) out.push_back(f i)` started on an empty vector. -/
def pushLoop (n : ℕ) (f : ℕ → ℚ) : List ℚ :=
  (List.range n).foldl (fun out i => out ++ [f i]) []

/-! ## convertToFloat32 (audio_utils.cpp, lines 9-18) -/

/-- The function `convertToFloat32`: a range-for over `audio16` that pushes
`static_cast<float>(sample) / 32768.0f`. An `int16_t` sample is an integer; the
callers state its range. -/
def convertToFloat32 (audio16 : List ℤ) : List ℚ :=
  audio16.foldl (fun (audio_f32 : List ℚ) (sample : ℤ) => audio_f32 ++ [(sample : ℚ) / 32768]) []

/-! ## resampleAudio (audio_utils.cpp, lines 20-44) -/

/-- The body of the loop of `resampleAudio` at output index `i` (lines 31-36). -/
def resampleSample (audio : List ℚ) (ratio : ℚ) (i : ℕ) : ℚ :=
  let index : ℚ := (i : ℚ) * ratio
  let index1 : ℕ := toSize index
  let index2 : ℕ := min (index1 + 1) (sizeSub audio.length 1)
  let frac : ℚ := index - (index1 : ℚ)
  audio.getD index1 0 * (1 - frac) + audio.getD index2 0 * frac

/-- The function `resampleAudio`. -/
def resampleAudio (audio : List ℚ) (source_rate target_rate : ℤ) : List ℚ :=
  if source_rate = target_rate then audio
  else
    let ratio : ℚ := (source_rate : ℚ) / (target_rate : ℚ)
    let new_size : ℕ := toSize ((audio.length : ℚ) / ratio)
    pushLoop new_size (resampleSample audio ratio)

/-! ## highPassFilter (audio_utils.cpp, lines 46-62) -/

/-- The constant `M_PI` of `<cmath>`, as the decimal literal the C library defines it by. -/
def M_PI : ℚ := 3.14159265358979323846

/-- The coefficient `alpha` of `highPassFilter` (lines 47-49). -/
def highPassAlpha (cutoff_freq : ℚ) (sample_rate : ℤ) : ℚ :=
  let rc : ℚ := 1 / (cutoff_freq * 2 * M_PI)
  let dt : ℚ := 1 / (sample_rate : ℚ)
  rc / (rc + dt)

/-- The variables the loop of `highPassFilter` updates: the buffer and the two
locals `prev_input`, `prev_output`. -/
structure HighPassState where
  audio : List ℚ
  prev_input : ℚ
  prev_output : ℚ

/-- One iteration of the loop of `highPassFilter` at index `i` (lines 57-60). -/
def highPassStep (alpha : ℚ) (st : HighPassState) (i : ℕ) : HighPassState :=
  let output : ℚ := alpha * (st.prev_output + st.audio.getD i 0 - st.prev_input)
  { audio := st.audio.set i output
    prev_input := st.audio.getD i 0
    prev_output := output }

/-- The function `highPassFilter`: the loop runs over `i = 1, ..., audio.size() - 1`. -/
def highPassFilter (audio : List ℚ) (cutoff_freq : ℚ) (sample_rate : ℤ) : List ℚ :=
  let alpha : ℚ := highPassAlpha cutoff_freq sample_rate
  if audio.isEmpty then audio
  else
    let init : HighPassState :=
      { audio := audio, prev_input := audio.getD 0 0, prev_output := audio.getD 0 0 }
    ((List.range' 1 (audio.length - 1)).foldl (highPassStep alpha) init).audio

/-! ## normalizeAudio (audio_utils.cpp, lines 84-99) -/

/-- The peak loop of `normalizeAudio` (lines 87-90), the same as that of
`adaptiveNoiseGate` (lines 145-148): `max_val = std::max(max_val, std::abs(sample))`
from `max_val = 0`. -/
def peakAbs (audio : List ℚ) : ℚ :=
  audio.foldl (fun max_val sample => max max_val |sample|) 0

/-- The function `normalizeAudio`. -/
def normalizeAudio (audio : List ℚ) : List ℚ :=
  if audio.isEmpty then audio
  else
    let max_val : ℚ := peakAbs audio
    if max_val > 0 then
      let scale : ℚ := 0.8 / max_val
      audio.map (fun sample => sample * scale)
    else audio

/-! ## voiceEnhancementFilter (audio_utils.cpp, lines 101-112) -/

/-- The body of the loop of `voiceEnhancementFilter` (lines 107-108): boost by
`1.2`, then `std::max(-0.95f, std::min(0.95f, sample))`. -/
def boostClip (sample : ℚ) : ℚ :=
  let boosted : ℚ := sample * 1.2
  max (-0.95) (min 0.95 boosted)

/-- The function `voiceEnhancementFilter`. -/
def voiceEnhancementFilter (audio : List ℚ) (sample_rate : ℤ) : List ℚ :=
  if audio.isEmpty then audio
  else (highPassFilter audio 300 sample_rate).map boostClip

/-! ## detectVoiceActivity (audio_utils.cpp, lines 114-140) -/

/-- The energy loop of `detectVoiceActivity` (lines 117-120): the sum of the squares. -/
def sumSquares (audio : List ℚ) : ℚ :=
  audio.foldl (fun energy sample => energy + sample * sample) 0

/-- The zero-crossing loop of `detectVoiceActivity` (lines 123-128), over
`i = 1, ..., audio.size() - 1`. The counter is an `int`; it is an unbounded integer
here (a buffer of fewer than `2 ^ 31` samples cannot overflow it). -/
def zeroCrossings (audio : List ℚ) : ℤ :=
  (List.range' 1 (audio.length - 1)).foldl
    (fun zero_crossings i =>
      if (decide (audio.getD (i - 1) 0 ≥ 0) != decide (audio.getD i 0 ≥ 0)) then
        zero_crossings + 1
      else zero_crossings) 0

/-- The function `detectVoiceActivity`; `sample_rate` is not used by the body. -/
def detectVoiceActivity (audio : List ℚ) (sample_rate : ℤ) : Bool :=
  if audio.isEmpty then false
  else
    let energy : ℚ := sumSquares audio / (audio.length : ℚ)
    let zcr : ℚ := (zeroCrossings audio : ℚ) / (audio.length : ℚ)
    let energy_threshold : ℚ := 0.001
    let zcr_min : ℚ := 0.01
    let zcr_max : ℚ := 0.3
    decide (energy > energy_threshold) && decide (zcr > zcr_min) && decide (zcr < zcr_max)

/-! ## spectralSubtractionDenoise (audio_utils.cpp, lines 64-82) -/

/-- The test `std::abs(sample) < noise_threshold` of line 76, where
`noise_threshold = rms * 0.1f` and `rms = std::sqrt(mean)` for the mean `mean` of the
squares (lines 71-73). The square root of a rational need not be rational, so the test
is decided on the squares: `|sample| / 0.1` is non-negative, hence
`|sample| < sqrt(mean) * 0.1` exactly when `(|sample| / 0.1) ^ 2 < mean`. -/
def belowNoiseThreshold (sample mean : ℚ) : Bool :=
  decide ((|sample| / 0.1) ^ 2 < mean)

/-- The function `spectralSubtractionDenoise`: the accumulation loop of lines 67-70 is
the sum of the squares, line 71 divides it by `audio.size()`, and the second loop
multiplies by `0.1f` the samples that pass the test; `sample_rate` is not used. -/
def spectralSubtractionDenoise (audio : List ℚ) (sample_rate : ℤ) : List ℚ :=
  if audio.isEmpty then audio
  else
    let mean : ℚ := sumSquares audio / (audio.length : ℚ)
    audio.map (fun sample => if belowNoiseThreshold sample mean then sample * 0.1 else sample)

/-! ## adaptiveNoiseGate (audio_utils.cpp, lines 142-159; audio_utils.h, line 28) -/

/-- The function `adaptiveNoiseGate`. -/
def adaptiveNoiseGate (audio : List ℚ) (threshold_ratio : ℚ) : List ℚ :=
  if audio.isEmpty then audio
  else
    let max_val : ℚ := peakAbs audio
    let gate_threshold : ℚ := max_val * threshold_ratio
    audio.map (fun sample => if |sample| < gate_threshold then sample * 0.01 else sample)

/-- The five calls `transcribe` makes on `pcmf32` before recognition, in their order. -/
def transcribePreprocess (pcmf32 : List ℚ) (sample_rate : ℤ) : List ℚ :=
  let a1 := normalizeAudio pcmf32
  let a2 := highPassFilter a1 80 sample_rate
  let a3 := spectralSubtractionDenoise a2 sample_rate
  let a4 := voiceEnhancementFilter a3 sample_rate
  adaptiveNoiseGate a4 0.05

/-! ## Specification-side definitions -/

/-- The mean energy as the specification words it: `mean(x[i]^2)`. -/
def meanSquareSpec (x : List ℚ) : ℚ :=
  (∑ i in Finset.range x.length, (x.getD i 0) ^ 2) / (x.length : ℚ)

/-- The zero-crossing rate as the specification words it: the number of indices `i`
in `1..n-1` at which `(x[i-1] >= 0)` differs from `(x[i] >= 0)`, divided by `n`. -/
def zcrSpec (x : List ℚ) : ℚ :=
  (((Finset.Ico 1 x.length).filter
      (fun i => ¬ ((0 ≤ x.getD (i - 1) 0) ↔ (0 ≤ x.getD i 0)))).card : ℚ) / (x.length : ℚ)

/-- The recurrence of the specification of the high-pass filter:
`y[0] = x[0]`, `y[i] = alpha * (y[i-1] + x[i] - x[i-1])`. -/
def highPassSpec (alpha : ℚ) (x : List ℚ) : ℕ → ℚ
  | 0 => x.getD 0 0
  | i + 1 => alpha * (highPassSpec alpha x i + x.getD (i + 1) 0 - x.getD i 0)

/-! ## Loop lemmas -/

theorem foldl_push_eq_append {α : Type} (f : α → ℚ) (l : List α) (acc : List ℚ) :
    l.foldl (fun out a => out ++ [f a]) acc = acc ++ l.map f := by
  induction l generalizing acc with
  | nil => simp
  | cons a l ih => simp [ih]

theorem convertToFloat32_eq_map (audio16 : List ℤ) :
    convertToFloat32 audio16 = audio16.map (fun (sample : ℤ) => (sample : ℚ) / 32768) := by
  unfold convertToFloat32
  rw [foldl_push_eq_append]
  simp

theorem getD_replicate_of_lt (c : ℚ) (n i : ℕ) (h : i < n) :
    (List.replicate n c).getD i 0 = c := by
  simp [h]

/-- C3: with equal rates `resampleAudio` returns the buffer it was given. -/
theorem resampleAudio_same_rate (buf : List ℚ) (r : ℤ) : resampleAudio buf r r = buf := by
  simp [resampleAudio]

/-- C5: `convertToFloat32` keeps the length, its `i`-th value is `input[i] / 32768`,
every output of a 16-bit input lies in `[-1, 1)`, `-32768` maps to `-1` and `32767`
to `32767 / 32768`. -/
theorem convertToFloat32_spec (audio16 : List ℤ)
    (h16 : ∀ s ∈ audio16, -32768 ≤ s ∧ s ≤ 32767) :
    (convertToFloat32 audio16).length = audio16.length ∧
      (∀ i, i < audio16.length →
        (convertToFloat32 audio16)[i]? = some (((audio16.getD i 0 : ℤ) : ℚ) / 32768)) ∧
      (∀ y ∈ convertToFloat32 audio16, -1 ≤ y ∧ y < 1) ∧
      convertToFloat32 [-32768] = [-1] ∧
      convertToFloat32 [32767] = [32767 / 32768] := by
  refine ⟨?_, ?_, ?_, ?_, ?_⟩
  · simp [convertToFloat32_eq_map]
  · intro i hi
    simp [convertToFloat32_eq_map, List.getElem?_eq_getElem hi]
  · intro y hy
    rw [convertToFloat32_eq_map, List.mem_map] at hy
    obtain ⟨s, hs, rfl⟩ := hy
    obtain ⟨hlo, hhi⟩ := h16 s hs
    have hlo' : (-32768 : ℚ) ≤ (s : ℚ) := by exact_mod_cast hlo
    have hhi' : (s : ℚ) ≤ 32767 := by exact_mod_cast hhi
    constructor
    · rw [le_div_iff₀ (by norm_num)]
      linarith
    · rw [div_lt_iff₀ (by norm_num)]
      linarith
  · simp [convertToFloat32_eq_map]
  · simp [convertToFloat32_eq_map]

/-- Witness of C5: the two ends of the 16-bit range and zero. -/
theorem convertToFloat32_spec_witness :
    (convertToFloat32 [-32768, 0, 32767]).length = [(-32768 : ℤ), 0, 32767].length ∧
      (∀ i, i < [(-32768 : ℤ), 0, 32767].length →
        (convertToFloat32 [-32768, 0, 32767])[i]?
          = some ((([(-32768 : ℤ), 0, 32767].getD i 0 : ℤ) : ℚ) / 32768)) ∧
      (∀ y ∈ convertToFloat32 [-32768, 0, 32767], -1 ≤ y ∧ y < 1) ∧
      convertToFloat32 [-32768] = [-1] ∧
      convertToFloat32 [32767] = [32767 / 32768] :=
  convertToFloat32_spec [-32768, 0, 32767] (by decide)

/-! ## normalizeAudio -/

theorem foldl_max_abs_ge (l : List ℚ) (m : ℚ) :
    m ≤ l.foldl (fun max_val sample => max max_val |sample|) m := by
  induction l generalizing m with
  | nil => simp
  | cons a l ih =>
    simp only [List.foldl_cons]
    exact le_trans (le_max_left _ _) (ih _)

theorem peakAbs_nonneg (audio : List ℚ) : 0 ≤ peakAbs audio :=
  foldl_max_abs_ge audio 0

/-- The state of the loop of `highPassFilter` after the iterations `1, ..., k`. -/
theorem highPass_loop_invariant (alpha : ℚ) (x : List ℚ) (k : ℕ) (hk : k + 1 ≤ x.length) :
    let st := (List.range' 1 k).foldl (highPassStep alpha)
      { audio := x, prev_input := x.getD 0 0, prev_output := x.getD 0 0 }
    st.audio.length = x.length ∧
      st.prev_input = x.getD k 0 ∧
      st.prev_output = highPassSpec alpha x k ∧
      (∀ j, j ≤ k → st.audio.getD j 0 = highPassSpec alpha x j) ∧
      (∀ j, k < j → st.audio.getD j 0 = x.getD j 0) := by
  induction k with
  | zero =>
    refine ⟨rfl, rfl, rfl, ?_, fun j _ => rfl⟩
    intro j hj
    have : j = 0 := by omega
    subst this
    rfl
  | succ k ih =>
    obtain ⟨hlen, hin, hout, hlow, hhigh⟩ := ih (by omega)
    rw [List.range'_concat, List.foldl_append]
    simp only [List.foldl_cons, List.foldl_nil, one_mul]
    generalize (List.range' 1 k).foldl (highPassStep alpha)
      { audio := x, prev_input := x.getD 0 0, prev_output := x.getD 0 0 } = st at hlen hin hout hlow hhigh
    have hread : st.audio.getD (1 + k) 0 = x.getD (k + 1) 0 := by
      rw [Nat.add_comm 1 k]
      exact hhigh (k + 1) (by omega)
    have hnew : alpha * (st.prev_output + st.audio.getD (1 + k) 0 - st.prev_input)
        = highPassSpec alpha x (k + 1) := by
      rw [hread, hin, hout]
      rfl
    have hidx : 1 + k < st.audio.length := by omega
    refine ⟨?_, ?_, ?_, ?_, ?_⟩
    · simp [highPassStep, hlen]
    · simp only [highPassStep]
      exact hread
    · simp only [highPassStep]
      exact hnew
    · intro j hj
      simp only [highPassStep]
      rw [hnew]
      by_cases hjk : j = k + 1
      · subst hjk
        simp only [List.getD_eq_getElem?_getD]
        rw [Nat.add_comm 1 k, List.getElem?_set_self (by omega)]
        rfl
      · simp only [List.getD_eq_getElem?_getD]
        rw [List.getElem?_set_ne (by omega)]
        have := hlow j (by omega)
        simpa using this
    · intro j hj
      simp only [highPassStep]
      simp only [List.getD_eq_getElem?_getD]
      rw [List.getElem?_set_ne (by omega)]
      have := hhigh j (by omega)
      simpa using this

/-- On a non-empty buffer `highPassFilter` keeps the length and its `i`-th sample is
the `i`-th value of the recurrence. -/
theorem highPassFilter_eq_spec (x : List ℚ) (cutoff_freq : ℚ) (sample_rate : ℤ)
    (hx : x ≠ []) :
    (highPassFilter x cutoff_freq sample_rate).length = x.length ∧
      ∀ i, i < x.length → (highPassFilter x cutoff_freq sample_rate).getD i 0
        = highPassSpec (highPassAlpha cutoff_freq sample_rate) x i := by
  have hlen : 0 < x.length := List.length_pos.mpr hx
  have hemp : x.isEmpty = false := by
    cases x with
    | nil => exact absurd rfl hx
    | cons a l => rfl
  obtain ⟨h1, _, _, h4, _⟩ :=
    highPass_loop_invariant (highPassAlpha cutoff_freq sample_rate) x (x.length - 1) (by omega)
  unfold highPassFilter
  simp only [hemp, Bool.false_eq_true, if_false]
  exact ⟨h1, fun i hi => h4 i (by omega)⟩

theorem highPassFilter_length (x : List ℚ) (cutoff_freq : ℚ) (sample_rate : ℤ) :
    (highPassFilter x cutoff_freq sample_rate).length = x.length := by
  cases x with
  | nil => simp [highPassFilter]
  | cons a l => exact (highPassFilter_eq_spec (a :: l) cutoff_freq sample_rate (by simp)).1

/-- C7: after `voiceEnhancementFilter` every sample lies in `[-0.95, 0.95]` and the
buffer has the length it had, for every buffer and every sample rate. -/
theorem voiceEnhancementFilter_clipped (audio : List ℚ) (sample_rate : ℤ) :
    (voiceEnhancementFilter audio sample_rate).length = audio.length ∧
      ∀ y ∈ voiceEnhancementFilter audio sample_rate, -0.95 ≤ y ∧ y ≤ 0.95 := by
  unfold voiceEnhancementFilter
  cases audio with
  | nil => simp
  | cons a l =>
    simp only [List.isEmpty_cons, Bool.false_eq_true, if_false, List.length_map,
      highPassFilter_length, List.mem_map, true_and]
    rintro y ⟨s, _, rfl⟩
    unfold boostClip
    constructor
    · exact le_max_left _ _
    · exact max_le (by norm_num) (min_le_left _ _)

/-! ## detectVoiceActivity -/

theorem foldl_count (p : ℕ → Prop) [DecidablePred p] (a k : ℕ) (z : ℤ) :
    (List.range' a k).foldl (fun zc i => if p i then zc + 1 else zc) z
      = z + (((Finset.Ico a (a + k)).filter p).card : ℤ) := by
  induction k with
  | zero => simp
  | succ k ih =>
    rw [List.range'_concat, List.foldl_append, ih]
    simp only [List.foldl_cons, List.foldl_nil, one_mul]
    rw [← Nat.add_assoc, Nat.Ico_succ_right_eq_insert_Ico (Nat.le_add_right a k),
      Finset.filter_insert]
    by_cases hp : p (a + k)
    · rw [if_pos hp, if_pos hp, Finset.card_insert_of_not_mem (by simp)]
      push_cast
      ring
    · rw [if_neg hp, if_neg hp]

/-- The counter the code computes is the number of indices at which the sign test
changes. -/
theorem zeroCrossings_eq_card (x : List ℚ) :
    zeroCrossings x = (((Finset.Ico 1 x.length).filter
      (fun i => ¬ ((0 ≤ x.getD (i - 1) 0) ↔ (0 ≤ x.getD i 0)))).card : ℤ) := by
  unfold zeroCrossings
  rw [foldl_count, zero_add]
  congr 1
  cases x with
  | nil => simp
  | cons a l =>
    have h : 1 + ((a :: l).length - 1) = (a :: l).length := by
      simp only [List.length_cons]
      omega
    rw [h]
    congr 1
    apply Finset.filter_congr
    intro i _
    simp only [ge_iff_le, bne_iff_ne, ne_eq, decide_eq_decide]

theorem zcr_eq_zcrSpec (x : List ℚ) :
    ((zeroCrossings x : ℤ) : ℚ) / (x.length : ℚ) = zcrSpec x := by
  unfold zcrSpec
  rw [zeroCrossings_eq_card]
  push_cast
  rfl

theorem sumSquares_replicate_zero (n : ℕ) : sumSquares (List.replicate n 0) = 0 := by
  unfold sumSquares
  induction n with
  | zero => rfl
  | succ n ih =>
    rw [List.replicate_succ, List.foldl_cons]
    simpa using ih

/-- C9: on a buffer of `n` zeros `detectVoiceActivity` returns `false`, for every
`n` and every sample rate. -/
theorem detectVoiceActivity_silence (n : ℕ) (sample_rate : ℤ) :
    detectVoiceActivity (List.replicate n 0) sample_rate = false := by
  unfold detectVoiceActivity
  cases n with
  | zero => rfl
  | succ n =>
    rw [sumSquares_replicate_zero]
    norm_num

theorem spectralSubtractionDenoise_length (audio : List ℚ) (sample_rate : ℤ) :
    (spectralSubtractionDenoise audio sample_rate).length = audio.length := by
  unfold spectralSubtractionDenoise
  split <;> simp

theorem adaptiveNoiseGate_length (audio : List ℚ) (threshold_ratio : ℚ) :
    (adaptiveNoiseGate audio threshold_ratio).length = audio.length := by
  unfold adaptiveNoiseGate
  split <;> simp

theorem normalizeAudio_length (audio : List ℚ) : (normalizeAudio audio).length = audio.length := by
  unfold normalizeAudio
  by_cases he : audio.isEmpty = true
  · simp [he]
  · by_cases hp : peakAbs audio > 0 <;> simp [he, hp]

theorem voiceEnhancementFilter_length (audio : List ℚ) (sample_rate : ℤ) :
    (voiceEnhancementFilter audio sample_rate).length = audio.length := by
  unfold voiceEnhancementFilter
  split
  · rfl
  · simp [highPassFilter_length]

theorem normalizeAudio_of_peak_not_pos (audio : List ℚ) (hp : ¬ 0 < peakAbs audio) :
    normalizeAudio audio = audio := by
  unfold normalizeAudio
  by_cases he : audio.isEmpty = true
  · simp [he]
  · simp [he, hp]

theorem highPassSpec_zeros (alpha : ℚ) (n i : ℕ) :
    highPassSpec alpha (List.replicate n 0) i = 0 := by
  have hz : ∀ j, (List.replicate n (0 : ℚ)).getD j 0 = 0 := by
    intro j
    by_cases hj : j < n
    · exact getD_replicate_of_lt 0 n j hj
    · exact List.getD_eq_default _ _ (by simpa using hj)
  induction i with
  | zero => exact hz 0
  | succ i ih =>
    unfold highPassSpec
    rw [ih, hz, hz]
    ring

theorem eq_replicate_of_getD (l : List ℚ) (c : ℚ) (h : ∀ i, i < l.length → l.getD i 0 = c) :
    l = List.replicate l.length c := by
  apply List.ext_getElem
  · simp
  · intro i h1 h2
    rw [← List.getD_eq_getElem l 0 h1, h i h1]
    simp

theorem highPassFilter_zeros (n : ℕ) (cutoff_freq : ℚ) (sample_rate : ℤ) :
    highPassFilter (List.replicate n 0) cutoff_freq sample_rate = List.replicate n 0 := by
  cases n with
  | zero => simp [highPassFilter]
  | succ n =>
    obtain ⟨hlen, hspec⟩ := highPassFilter_eq_spec (List.replicate (n + 1) 0) cutoff_freq
      sample_rate (by simp)
    rw [List.length_replicate] at hlen hspec
    have h := eq_replicate_of_getD (highPassFilter (List.replicate (n + 1) 0) cutoff_freq
      sample_rate) 0 (by
        intro i hi
        rw [hlen] at hi
        rw [hspec i hi, highPassSpec_zeros])
    rw [hlen] at h
    exact h

theorem peakAbs_zeros (n : ℕ) : peakAbs (List.replicate n 0) = 0 := by
  unfold peakAbs
  induction n with
  | zero => rfl
  | succ n ih =>
    rw [List.replicate_succ, List.foldl_cons]
    simpa using ih

theorem convertToFloat32_zeros (n : ℕ) :
    convertToFloat32 (List.replicate n 0) = List.replicate n 0 := by
  rw [convertToFloat32_eq_map, List.map_replicate]
  simp

theorem normalizeAudio_zeros (n : ℕ) :
    normalizeAudio (List.replicate n 0) = List.replicate n 0 := by
  apply normalizeAudio_of_peak_not_pos
  rw [peakAbs_zeros]
  exact lt_irrefl 0

theorem spectralSubtractionDenoise_zeros (n : ℕ) (sample_rate : ℤ) :
    spectralSubtractionDenoise (List.replicate n 0) sample_rate = List.replicate n 0 := by
  unfold spectralSubtractionDenoise
  split
  · rfl
  · rw [List.map_replicate]
    simp

theorem boostClip_zero : boostClip 0 = 0 := by
  unfold boostClip
  norm_num

theorem voiceEnhancementFilter_zeros (n : ℕ) (sample_rate : ℤ) :
    voiceEnhancementFilter (List.replicate n 0) sample_rate = List.replicate n 0 := by
  unfold voiceEnhancementFilter
  split
  · rfl
  · rw [highPassFilter_zeros, List.map_replicate, boostClip_zero]

theorem adaptiveNoiseGate_zeros (n : ℕ) (threshold_ratio : ℚ) :
    adaptiveNoiseGate (List.replicate n 0) threshold_ratio = List.replicate n 0 := by
  unfold adaptiveNoiseGate
  split
  · rfl
  · rw [List.map_replicate]
    simp

theorem transcribePreprocess_zeros (n : ℕ) (sample_rate : ℤ) :
    transcribePreprocess (List.replicate n 0) sample_rate = List.replicate n 0 := by
  unfold transcribePreprocess
  simp only [normalizeAudio_zeros, highPassFilter_zeros, spectralSubtractionDenoise_zeros,
    voiceEnhancementFilter_zeros, adaptiveNoiseGate_zeros]

theorem detectVoiceActivity_zeros (n : ℕ) (sample_rate : ℤ) :
    detectVoiceActivity (List.replicate n 0) sample_rate = false := by
  unfold detectVoiceActivity
  cases n with
  | zero => rfl
  | succ n =>
    rw [sumSquares_replicate_zero]
    norm_num

/-- C14: at 16000 Hz, converting `n` zero 16-bit samples and running the five
preprocessing calls of `transcribe` gives a buffer of length `n` whose every sample is
`0`, on which `detectVoiceActivity` returns `false`; for every `n`, so for `n = 16000`. -/
theorem transcribePreprocess_silence (n : ℕ) :
    (transcribePreprocess (convertToFloat32 (List.replicate n 0)) 16000).length = n ∧
      (∀ y ∈ transcribePreprocess (convertToFloat32 (List.replicate n 0)) 16000, y = 0) ∧
      transcribePreprocess (convertToFloat32 (List.replicate 16000 0)) 16000
        = List.replicate 16000 0 ∧
      detectVoiceActivity (transcribePreprocess (convertToFloat32 (List.replicate n 0)) 16000)
        16000 = false := by
  simp only [convertToFloat32_zeros, transcribePreprocess_zeros, List.length_replicate,
    detectVoiceActivity_zeros, true_and, and_true]
  intro y hy
  exact List.eq_of_mem_replicate hy

/-- C15: every stage is a no-op on the empty buffer: the five in-place stages leave it
empty, `convertToFloat32` and `resampleAudio` (positive rates, equal or not) return the
empty buffer, `detectVoiceActivity` returns `false`, and the loop of `resampleAudio`
runs zero times, so it reads no element. -/
theorem empty_buffer_noop (cutoff_freq threshold_ratio : ℚ) (sample_rate : ℤ) :
    highPassFilter [] cutoff_freq sample_rate = [] ∧
      spectralSubtractionDenoise [] sample_rate = [] ∧
      normalizeAudio [] = [] ∧
      voiceEnhancementFilter [] sample_rate = [] ∧
      adaptiveNoiseGate [] threshold_ratio = [] ∧
      convertToFloat32 [] = [] ∧
      (∀ source_rate target_rate : ℤ, 0 < source_rate → 0 < target_rate →
        resampleAudio [] source_rate target_rate = [] ∧
        toSize (((([] : List ℚ).length : ℕ) : ℚ) / ((source_rate : ℚ) / (target_rate : ℚ))) = 0) ∧
      detectVoiceActivity [] sample_rate = false := by
  refine ⟨rfl, rfl, rfl, rfl, rfl, rfl, ?_, rfl⟩
  intro s t _ _
  have h0 : toSize (((([] : List ℚ).length : ℕ) : ℚ) / ((s : ℚ) / (t : ℚ))) = 0 := by
    simp [toSize]
  refine ⟨?_, h0⟩
  unfold resampleAudio
  split
  · rfl
  · simp only [h0]
    rfl

/-- Witness of C15: the stages at 16000 Hz, resampling from 44100 Hz to 16000 Hz and
from 16000 Hz to itself. -/
theorem empty_buffer_noop_witness :
    resampleAudio [] 44100 16000 = [] ∧ resampleAudio [] 16000 16000 = [] ∧
      highPassFilter [] 80 16000 = [] ∧ detectVoiceActivity [] 16000 = false :=
  ⟨((empty_buffer_noop 80 (1 / 20) 16000).2.2.2.2.2.2.1 44100 16000 (by decide) (by decide)).1,
    ((empty_buffer_noop 80 (1 / 20) 16000).2.2.2.2.2.2.1 16000 16000 (by decide) (by decide)).1,
    (empty_buffer_noop 80 (1 / 20) 16000).1,
    (empty_buffer_noop 80 (1 / 20) 16000).2.2.2.2.2.2.2⟩

/-! ## resampleAudio: the two reads -/

theorem boostClip_bounds (sample : ℚ) : -0.95 ≤ boostClip sample ∧ boostClip sample ≤ 0.95 := by
  unfold boostClip
  exact ⟨le_max_left _ _, max_le (by norm_num) (min_le_left _ _)⟩

theorem voiceEnhancementFilter_abs_le (audio : List ℚ) (sample_rate : ℤ) :
    ∀ y ∈ voiceEnhancementFilter audio sample_rate, |y| ≤ 0.95 := by
  intro y hy
  unfold voiceEnhancementFilter at hy
  cases audio with
  | nil => simp at hy
  | cons a l =>
    simp only [List.isEmpty_cons, Bool.false_eq_true, if_false, List.mem_map] at hy
    obtain ⟨s, _, rfl⟩ := hy
    exact abs_le.mpr (boostClip_bounds s)

/-- The gate keeps a sample or scales it by `0.01`: it never raises a magnitude. -/
theorem adaptiveNoiseGate_abs_le (audio : List ℚ) (threshold_ratio : ℚ) :
    ∀ y ∈ adaptiveNoiseGate audio threshold_ratio, ∃ x ∈ audio, |y| ≤ |x| := by
  intro y hy
  unfold adaptiveNoiseGate at hy
  split at hy
  · exact ⟨y, hy, le_refl _⟩
  · obtain ⟨x, hx, rfl⟩ := List.mem_map.mp hy
    refine ⟨x, hx, ?_⟩
    split
    · rw [abs_mul]
      have h1 : |(0.01 : ℚ)| ≤ 1 := by norm_num [abs_le]
      exact mul_le_of_le_one_right (abs_nonneg x) h1
    · exact le_refl _

/-- C17: for every buffer and every positive sample rate, the five preprocessing calls
of `transcribe` return a buffer of the length of the input whose every sample lies in
`[-0.95, 0.95]`. -/
theorem transcribePreprocess_range (pcmf32 : List ℚ) (sample_rate : ℤ)
    (_hr : 0 < sample_rate) :
    (transcribePreprocess pcmf32 sample_rate).length = pcmf32.length ∧
      ∀ y ∈ transcribePreprocess pcmf32 sample_rate, -0.95 ≤ y ∧ y ≤ 0.95 := by
  unfold transcribePreprocess
  constructor
  · simp only [adaptiveNoiseGate_length, voiceEnhancementFilter_length,
      spectralSubtractionDenoise_length, highPassFilter_length, normalizeAudio_length]
  · intro y hy
    obtain ⟨x, hx, hyx⟩ := adaptiveNoiseGate_abs_le _ _ y hy
    exact abs_le.mp (le_trans hyx (voiceEnhancementFilter_abs_le _ _ x hx))

/-- Witness of C17: the buffer `[1, -2, 1/2]` at 16000 Hz. -/
theorem transcribePreprocess_range_witness :
    (transcribePreprocess [1, -2, 1 / 2] 16000).length = [(1 : ℚ), -2, 1 / 2].length ∧
      ∀ y ∈ transcribePreprocess [1, -2, 1 / 2] 16000, -0.95 ≤ y ∧ y ≤ 0.95 :=
  transcribePreprocess_range [1, -2, 1 / 2] 16000 (by decide)

/-! ## highPassFilter: the coefficient -/

theorem getD_mem_of_lt (x : List ℚ) (i : ℕ) (hi : i < x.length) : x.getD i 0 ∈ x := by
  rw [List.getD_eq_getElem x 0 hi]
  exact List.getElem_mem hi

/-- When the sign test gives the same answer on every sample the counter stays at 0. -/
theorem zeroCrossings_eq_zero_of_same_sign (x : List ℚ)
    (hsign : (∀ s ∈ x, 0 ≤ s) ∨ (∀ s ∈ x, s < 0)) : zeroCrossings x = 0 := by
  rw [zeroCrossings_eq_card]
  have hempty : (Finset.Ico 1 x.length).filter
      (fun i => ¬ ((0 ≤ x.getD (i - 1) 0) ↔ (0 ≤ x.getD i 0))) = ∅ := by
    apply Finset.filter_eq_empty_iff.mpr
    intro i hi
    obtain ⟨h1, h2⟩ := Finset.mem_Ico.mp hi
    have ha := getD_mem_of_lt x (i - 1) (by omega)
    have hb := getD_mem_of_lt x i h2
    rw [not_not]
    rcases hsign with hpos | hneg
    · exact ⟨fun _ => hpos _ hb, fun _ => hpos _ ha⟩
    · exact ⟨fun h => absurd h (not_le.mpr (hneg _ ha)),
        fun h => absurd h (not_le.mpr (hneg _ hb))⟩
  rw [hempty]
  rfl

theorem detectVoiceActivity_of_zeroCrossings_eq_zero (x : List ℚ) (sample_rate : ℤ)
    (hz : zeroCrossings x = 0) : detectVoiceActivity x sample_rate = false := by
  unfold detectVoiceActivity
  split
  · rfl
  · rw [hz]
    norm_num

/-- C21: on a non-empty buffer whose samples are all `≥ 0` or all `< 0` the
zero-crossing count is `0`, the zero-crossing rate is `0`, which is not above `0.01`,
and `detectVoiceActivity` returns `false` at every sample rate; every buffer of one
sample is such a buffer. -/
theorem detectVoiceActivity_no_sign_change :
    (∀ x : List ℚ, x ≠ [] → ((∀ s ∈ x, 0 ≤ s) ∨ (∀ s ∈ x, s < 0)) →
        zeroCrossings x = 0 ∧ zcrSpec x = 0 ∧ ¬ zcrSpec x > 0.01 ∧
          ∀ sample_rate : ℤ, detectVoiceActivity x sample_rate = false) ∧
      ∀ (a : ℚ) (sample_rate : ℤ), detectVoiceActivity [a] sample_rate = false := by
  have hmain : ∀ x : List ℚ, ((∀ s ∈ x, 0 ≤ s) ∨ (∀ s ∈ x, s < 0)) →
      zeroCrossings x = 0 ∧ zcrSpec x = 0 ∧ ¬ zcrSpec x > 0.01 ∧
        ∀ sample_rate : ℤ, detectVoiceActivity x sample_rate = false := by
    intro x hsign
    have hz := zeroCrossings_eq_zero_of_same_sign x hsign
    have hzcr : zcrSpec x = 0 := by
      rw [← zcr_eq_zcrSpec, hz]
      simp
    refine ⟨hz, hzcr, ?_, fun r => detectVoiceActivity_of_zeroCrossings_eq_zero x r hz⟩
    rw [hzcr]
    norm_num
  refine ⟨fun x _ hsign => hmain x hsign, ?_⟩
  intro a sample_rate
  have hsign : (∀ s ∈ [a], 0 ≤ s) ∨ (∀ s ∈ [a], s < 0) := by
    rcases le_or_lt 0 a with h | h
    · left
      intro s hs
      rw [List.mem_singleton.mp hs]
      exact h
    · right
      intro s hs
      rw [List.mem_singleton.mp hs]
      exact h
  exact (hmain [a] hsign).2.2.2 sample_rate

/-- Witness of C21: the loud buffer `[1, 1, 1, 1]` has mean square `1`, above the
energy threshold, and no sign change; the detector answers `false`. -/
theorem detectVoiceActivity_no_sign_change_witness :
    meanSquareSpec [1, 1, 1, 1] > 0.001 ∧ zeroCrossings [1, 1, 1, 1] = 0 ∧
      zcrSpec [1, 1, 1, 1] = 0 ∧ detectVoiceActivity [1, 1, 1, 1] 16000 = false ∧
      detectVoiceActivity [-3] 16000 = false :=
  have hsign : (∀ s ∈ [(1 : ℚ), 1, 1, 1], 0 ≤ s) ∨ (∀ s ∈ [(1 : ℚ), 1, 1, 1], s < 0) := by
    left
    intro s hs
    simp only [List.mem_cons, List.mem_singleton, List.not_mem_nil, or_false, or_self] at hs
    rw [hs]
    norm_num
  have h := detectVoiceActivity_no_sign_change.1 [1, 1, 1, 1] (by simp) hsign
  ⟨by norm_num [meanSquareSpec, Finset.sum_range_succ], h.1, h.2.1, h.2.2.2 16000,
    detectVoiceActivity_no_sign_change.2 (-3) 16000⟩

end VoiceRec
